import Mathlib

/-!
Shallow embedding of the ICgen position/density pipeline
(`src/backup03/pos_class.py`, `src/backup03/calc_rho_zr.py`,
`src/backup03/ICgen_settings.py`).

Numeric arrays are `List α` over a linear ordered field (instantiated at `ℚ`
for executable checks and at `ℝ` where the source uses `sqrt`/`cos`/`sin`/π).
External collaborators (scipy's fitted spline, the per-radius inverse-CDF
samplers built by `calc_rho.cdfinv_z`, the surface-density profile `sigma`,
numpy's random streams) enter as explicit function/list parameters.
-/

variable {α : Type} [LinearOrderedField α]

/-- Lookup in `(List.range n).map f`: entry `i < n` is `f i`. -/
theorem getD_map_range {β : Type} (f : ℕ → β) {n i : ℕ} (d : β) (h : i < n) :
    ((List.range n).map f).getD i d = f i := by
  rw [List.getD_eq_getElem?_getD, List.getElem?_map, List.getElem?_range h]
  rfl

/-- numpy `arr.min()` on a nonempty array (fold of `min` over the entries). -/
def npMin (l : List α) : α :=
  match l with
  | [] => 0
  | x :: xs => xs.foldl min x

/-- numpy `arr.max()` on a nonempty array (fold of `max` over the entries). -/
def npMax (l : List α) : α :=
  match l with
  | [] => 0
  | x :: xs => xs.foldl max x

theorem foldl_min_le_and_mem (x : α) (xs : List α) :
    xs.foldl min x ≤ x ∧ (xs.foldl min x = x ∨ xs.foldl min x ∈ xs) := by
  induction xs generalizing x with
  | nil => exact ⟨le_refl x, Or.inl rfl⟩
  | cons y ys ih =>
    simp only [List.foldl_cons]
    rcases ih (min x y) with ⟨hle, hmem⟩
    constructor
    · exact le_trans hle (min_le_left x y)
    · rcases hmem with h | h
      · rcases le_total x y with hxy | hxy
        · left; rw [h, min_eq_left hxy]
        · right; rw [h, min_eq_right hxy]; exact List.mem_cons_self y ys
      · right; exact List.mem_cons_of_mem y h

theorem le_foldl_max_and_mem (x : α) (xs : List α) :
    x ≤ xs.foldl max x ∧ (xs.foldl max x = x ∨ xs.foldl max x ∈ xs) := by
  induction xs generalizing x with
  | nil => exact ⟨le_refl x, Or.inl rfl⟩
  | cons y ys ih =>
    simp only [List.foldl_cons]
    rcases ih (max x y) with ⟨hle, hmem⟩
    constructor
    · exact le_trans (le_max_left x y) hle
    · rcases hmem with h | h
      · rcases le_total x y with hxy | hxy
        · right; rw [h, max_eq_right hxy]; exact List.mem_cons_self y ys
        · left; rw [h, max_eq_left hxy]
      · right; exact List.mem_cons_of_mem y h

/-- The minimum of a nonempty list is one of its entries. -/
theorem npMin_mem {l : List α} (h : l ≠ []) : npMin l ∈ l := by
  match l, h with
  | x :: xs, _ =>
    rcases (foldl_min_le_and_mem x xs).2 with h1 | h1
    · simp [npMin, h1]
    · simp [npMin]
      right
      exact h1

/-- The maximum of a nonempty list is one of its entries. -/
theorem npMax_mem {l : List α} (h : l ≠ []) : npMax l ∈ l := by
  match l, h with
  | x :: xs, _ =>
    rcases (le_foldl_max_and_mem x xs).2 with h1 | h1
    · simp [npMax, h1]
    · simp [npMax]
      right
      exact h1

/-- numpy `np.linspace(a, b, n)`: `n` evenly spaced values from `a` to `b`
inclusive, entry `i` being `a + (b-a)·i/(n-1)`. -/
def linspace (a b : α) (n : ℕ) : List α :=
  (List.range n).map (fun i : ℕ => a + (b - a) * (i : α) / ((n - 1 : ℕ) : α))

theorem linspace_length (a b : α) (n : ℕ) : (linspace a b n).length = n := by
  rw [linspace, List.length_map, List.length_range]

theorem linspace_getD (a b : α) {n i : ℕ} (h : i < n) :
    (linspace a b n).getD i 0 = a + (b - a) * (i : α) / ((n - 1 : ℕ) : α) := by
  rw [linspace]
  exact getD_map_range _ 0 h

/-- numpy `np.digitize(x, bins)` for increasing `bins`: the number of bin
edges that are `≤ x`, i.e. the index `j` with `bins[j-1] ≤ x < bins[j]`. -/
def digitize (x : α) (bins : List α) : ℕ :=
  (bins.filter (fun b => decide (b ≤ x))).length

theorem digitize_cons_of_le {b x : α} (bs : List α) (h : b ≤ x) :
    digitize x (b :: bs) = digitize x bs + 1 := by
  simp [digitize, List.filter_cons, h]

theorem digitize_cons_of_lt {b x : α} {bs : List α} (hx : x < b) (hb : ∀ c ∈ bs, b < c) :
    digitize x (b :: bs) = 0 := by
  have hfil : (b :: bs).filter (fun c => decide (c ≤ x)) = [] := by
    apply List.filter_eq_nil_iff.2
    intro c hc
    rcases List.mem_cons.1 hc with rfl | hc
    · simp [not_le.2 hx]
    · simp [not_le.2 (lt_trans hx (hb c hc))]
  simp [digitize, hfil]

/-- The number of grid edges ≤ `x` never exceeds the number of edges. -/
theorem digitize_le_length (x : α) (bins : List α) : digitize x bins ≤ bins.length :=
  List.length_filter_le _ bins

/-- If the smallest edge is ≤ `x` then `digitize` lands at index ≥ 1. -/
theorem digitize_pos {x : α} {bins : List α} (hne : bins ≠ []) (hmin : npMin bins ≤ x) :
    1 ≤ digitize x bins := by
  have hmem : npMin bins ∈ bins.filter (fun b => decide (b ≤ x)) :=
    List.mem_filter.2 ⟨npMin_mem hne, by simpa using hmin⟩
  exact List.length_pos.2 (List.ne_nil_of_mem hmem)

/-- If `x` is below the largest edge then `digitize` lands strictly inside. -/
theorem digitize_lt_length {x : α} {bins : List α} (hne : bins ≠ [])
    (hmax : x < npMax bins) : digitize x bins < bins.length := by
  rcases lt_or_eq_of_le (digitize_le_length x bins) with h | h
  · exact h
  · exfalso
    have hall := List.filter_length_eq_length.1 h (npMax bins) (npMax_mem hne)
    exact absurd (of_decide_eq_true hall) (not_le.2 hmax)

/-- For a strictly increasing edge list, the edge below the digitize index
is ≤ `x`: `bins[j-1] ≤ x` where `j = digitize x bins ≥ 1`. -/
theorem digitize_lower (x : α) :
    ∀ bins : List α, List.Pairwise (· < ·) bins →
      1 ≤ digitize x bins → bins.getD (digitize x bins - 1) 0 ≤ x := by
  intro bins
  induction bins with
  | nil => intro _ h; simp [digitize] at h
  | cons b bs ih =>
    intro hp h1
    rcases List.pairwise_cons.1 hp with ⟨hb, hbs⟩
    by_cases hbx : b ≤ x
    · rw [digitize_cons_of_le bs hbx]
      rcases Nat.eq_zero_or_pos (digitize x bs) with h0 | hpos
      · simpa [h0] using hbx
      · obtain ⟨k, hk⟩ := Nat.exists_eq_add_of_le hpos
        have hkk : digitize x bs = k + 1 := by omega
        have := ih hbs hpos
        rw [hkk] at this ⊢
        simpa using this
    · rw [digitize_cons_of_lt (not_le.1 hbx) hb] at h1
      exact absurd h1 (by norm_num)

/-- For a strictly increasing edge list, the edge at the digitize index
is > `x`: `x < bins[j]` where `j = digitize x bins < bins.length`. -/
theorem digitize_upper (x : α) :
    ∀ bins : List α, List.Pairwise (· < ·) bins →
      digitize x bins < bins.length → x < bins.getD (digitize x bins) 0 := by
  intro bins
  induction bins with
  | nil => intro _ h; simp [digitize] at h
  | cons b bs ih =>
    intro hp hlt
    rcases List.pairwise_cons.1 hp with ⟨hb, hbs⟩
    by_cases hbx : b ≤ x
    · rw [digitize_cons_of_le bs hbx] at hlt ⊢
      have := ih hbs (by simpa using hlt)
      simpa using this
    · rw [digitize_cons_of_lt (not_le.1 hbx) hb]
      simpa using not_le.1 hbx

/-- Settings block `filenames` from `ICgen_settings.py` (plus the
`rhoFileName` slot that `rho_from_array.save` reads and writes). -/
structure filenames where
  IC_file_name : String
  snapshotName : String
  paramName : String
  rhoFileName : String
deriving DecidableEq

/-- Settings block `rho_calc` from `ICgen_settings.py`. -/
structure rho_calc where
  nr : ℕ
  nz : ℕ
  zmax : ℚ
  rho_tol : ℚ
deriving DecidableEq

/-- Settings block `pos_gen` from `ICgen_settings.py`. -/
structure pos_gen where
  nParticles : ℕ
  method : String
deriving DecidableEq

/-- Settings block `snapshot` from `ICgen_settings.py`. -/
structure snapshot where
  mScale : ℚ
  metals : ℚ
  eps : ℚ
deriving DecidableEq

/-- Settings block `physical` from `ICgen_settings.py` (magnitudes only;
units elided). -/
structure physical where
  m : ℚ
  M : ℚ
  T0 : ℚ
  r0 : ℚ
  Tpower : ℚ
  Tmin : ℚ
deriving DecidableEq

/-- The `settings` object from `ICgen_settings.py`. -/
structure settings where
  filenames : filenames
  rho_calc : rho_calc
  pos_gen : pos_gen
  snapshot : snapshot
  physical : physical
deriving DecidableEq

/-- The `rho_from_array` class from `calc_rho_zr.py` (the Density
Interpolant).  `rho_binned`, `z_bins`, `r_bins` are the stored table and
grids.  `rho_spline` stands for the field `_rho_spline`, the 2-D spline
scipy's `RectBivariateSpline(z, r, rho)` fits to the table: an external
collaborator, so it enters the model as an unconstrained function (its one
property used below: fitting a constant table yields the constant
function, extrapolation included).  `cdf_inv_fns` stands for the field
`_cdf_inv`: the per-radius inverse-CDF samplers produced by
`calc_rho.cdfinv_z` (a module not under `src/`), one function per radial
grid index.  `drho_dr_spline` stands for `_drho_dr`. -/
structure rho_from_array (α : Type) where
  rho_binned : List (List α)
  z_bins : List α
  r_bins : List α
  cdf_inv_fns : List (α → α)
  rho_spline : α → α → α
  drho_dr_spline : α → α → α

/-- Method `rho_from_array.cdf_inv(m, r)` from `calc_rho_zr.py`.

Mirrors the source line by line: a length-1 argument is broadcast against
the other (numpy `r*np.ones(m.shape)` / `m*np.ones(r.shape)`); the output
buffer starts as zeros; `dr` is the first radial grid spacing
`r_bins[1] - r_bins[0]`; `np.digitize` locates each radius among the grid
edges; only indices with `r_bins.min() <= r[i] < r_bins.max()` are
written, each as
`z_lo + ((z_hi - z_lo)/dr) * (r[i] - r_bins[j-1])` with `z_lo`/`z_hi` the
bracketing per-radius samplers evaluated at `m[i]`; every other entry is
left at the zero it was initialised to, and no error is raised. -/
def rho_from_array.cdf_inv (R : rho_from_array α) (m r : List α) : List α :=
  let m' := if m.length < r.length then List.replicate r.length (m.getD 0 0) else m
  let r' := if r.length < m.length then List.replicate m.length (r.getD 0 0) else r
  let dr := R.r_bins.getD 1 0 - R.r_bins.getD 0 0
  (List.range r'.length).map (fun i : ℕ =>
    let ri := r'.getD i 0
    let mi := m'.getD i 0
    if npMin R.r_bins ≤ ri ∧ ri < npMax R.r_bins then
      let j := digitize ri R.r_bins
      let z_lo := (R.cdf_inv_fns.getD (j - 1) (fun _ => 0)) mi
      let z_hi := (R.cdf_inv_fns.getD j (fun _ => 0)) mi
      z_lo + ((z_hi - z_lo) / dr) * (ri - R.r_bins.getD (j - 1) 0)
    else 0)

/-- Method `rho_from_array.rho(z, r)` from `calc_rho_zr.py` (scalar case;
the array case evaluates the same expression elementwise): the fitted
spline is evaluated unconditionally — there is no test against the stored
`z_bins`/`r_bins` domain and no clamping of outside points. -/
def rho_from_array.rho (R : rho_from_array α) (z r : α) : α :=
  R.rho_spline z r

/-- A pickled numpy value: a 1-D or a 2-D array. -/
inductive npValue (α : Type) where
  | arr1 (a : List α)
  | arr2 (a : List (List α))
deriving DecidableEq

/-- Method `rho_from_array.save(filename)` from `calc_rho_zr.py`.
Returns the pickled dictionary (an association list in insertion order),
the filename actually used, and the owning context's settings after the
final `self._parent.settings.filenames.rhoFileName = filename` update. -/
def rho_from_array.save (R : rho_from_array α) (S : settings) (filename : Option String) :
    List (String × npValue α) × String × settings :=
  let fn := filename.getD S.filenames.rhoFileName
  ([("rho", npValue.arr2 R.rho_binned),
    ("z", npValue.arr1 R.z_bins),
    ("r", npValue.arr1 R.r_bins)],
   fn,
   { S with filenames := { S.filenames with rhoFileName := fn } })

/-- The `for n in range(nr)` loop of `rho_zr` in `calc_rho_zr.py`, over the
remaining radial points.  Produces the assembled columns
(`rho[:,n] = rho_vector`), the vertical grid `z` as left by the loop's last
iteration, and the trace of radii the solver `calc_rho.rho_z` (a module not
under `src/`) was invoked at, in order. -/
def rho_zr_loop (solver : α → List α × List α) : List α → List (List α) × List α × List α
  | [] => ([], [], [])
  | [x] => ([(solver x).1], (solver x).2, [x])
  | x :: y :: rest =>
    let p := rho_zr_loop solver (y :: rest)
    ((solver x).1 :: p.1, p.2.1, x :: p.2.2)

/-- Function `rho_zr(ICobj)` from `calc_rho_zr.py`: reads `nr` from the
settings, takes `rmin`/`rmax` as min/max of the sigma profile's radial
grid, builds `r = np.linspace(rmin, rmax, nr)`, and runs the per-radius
solver loop.  Returns (columns of rho, z grid, r grid, solver-call trace).
The solver is the external `calc_rho.rho_z`, abstracted as a function from
a radius to a (rho vector, z grid) pair. -/
def rho_zr (solver : α → List α × List α) (nr : ℕ) (sigma_r_bins : List α) :
    List (List α) × List α × List α × List α :=
  let rmin := npMin sigma_r_bins
  let rmax := npMax sigma_r_bins
  let r := linspace rmin rmax nr
  let p := rho_zr_loop solver r
  (p.1, p.2.1, r, p.2.2)

theorem rho_zr_loop_cols (solver : α → List α × List α) :
    ∀ l : List α, (rho_zr_loop solver l).1 = l.map (fun x => (solver x).1) := by
  intro l
  induction l with
  | nil => rfl
  | cons x xs ih =>
    cases xs with
    | nil => rfl
    | cons y rest => simp [rho_zr_loop, ih]

theorem rho_zr_loop_calls (solver : α → List α × List α) :
    ∀ l : List α, (rho_zr_loop solver l).2.2 = l := by
  intro l
  induction l with
  | nil => rfl
  | cons x xs ih =>
    cases xs with
    | nil => rfl
    | cons y rest => simp [rho_zr_loop, ih]

theorem rho_zr_loop_z (solver : α → List α × List α) :
    ∀ (l : List α) (h : l ≠ []), (rho_zr_loop solver l).2.1 = (solver (l.getLast h)).2 := by
  intro l
  induction l with
  | nil => intro h; exact absurd rfl h
  | cons x xs ih =>
    intro h
    cases xs with
    | nil => rfl
    | cons y rest =>
      have := ih (by simp)
      simp [rho_zr_loop, this, List.getLast]

/-- A Python error raised during `pos.__init__`: the explicit
`raise NameError` precondition failures, or an `AttributeError` from
reading an attribute that was never assigned. -/
inductive PosError where
  | nameError (msg : String)
  | attributeError (msg : String)
deriving DecidableEq

/-- The cumulative-probability values `m[1:-1]` that the `'grid'` branch of
`pos._generate_r` passes to the radial inverse CDF:
`np.linspace(0, 1, nParticles + 2)` with the two boundary entries
discarded. -/
def gridMs (nParticles : ℕ) : List α :=
  ((linspace 0 1 (nParticles + 2)).drop 1).dropLast

/-- Method `pos._generate_r` from `pos_class.py`: the `'grid'` branch maps
the interior cumulative values through `sigma.cdf_inv`; the `'random'`
branch maps `nParticles` uniform draws (the `rand` stream) through it; any
other method runs neither branch, so the attribute `self.r` is never
assigned (`none`). -/
def generate_r (method : String) (nParticles : ℕ) (cdf_inv_r : α → α) (rand : List α) :
    Option (List α) :=
  if method = "grid" then some ((gridMs nParticles).map cdf_inv_r)
  else if method = "random" then some (rand.map cdf_inv_r)
  else none

/-- Method `pos._generate_z` from `pos_class.py`: evaluate the Density
Interpolant's inverse CDF at uniform draws `mz` and the particle radii
`r`, then multiply by the `signs` stream
(numpy `np.random.choice(np.array([-1,1]), nParticles)`). -/
def generate_z (R : rho_from_array α) (mz signs r : List α) : List α :=
  (R.cdf_inv mz r).zipWith (· * ·) signs

/-- The azimuthal accumulation loop of the `'grid'` branch of
`pos._generate_theta` from `pos_class.py`: `theta[0] = 0` and
`theta[n+1] = theta[n] - dtheta[n]` with
`dtheta[n] = sqrt(2*pi*(1 - r[n]/r[n+1]))`. -/
noncomputable def theta_rec (r : List ℝ) : ℕ → ℝ
  | 0 => 0
  | n + 1 => theta_rec r n - Real.sqrt (2 * Real.pi * (1 - r.getD n 0 / r.getD (n + 1) 0))

/-- Method `pos._generate_theta` from `pos_class.py`: the deterministic
spiral for `'grid'`, `2*pi*np.random.rand(nParticles)` for `'random'`,
and no assignment for any other method (`none`). -/
noncomputable def generate_theta (method : String) (nParticles : ℕ) (r : List ℝ)
    (rand : List ℝ) : Option (List ℝ) :=
  if method = "grid" then some ((List.range nParticles).map (theta_rec r))
  else if method = "random" then some (rand.map (fun t => 2 * Real.pi * t))
  else none

/-- The position object built by `pos.__init__` from `pos_class.py`
(`xyz` assembly elided: its columns are exactly `x`, `y`, `z`). -/
structure pos where
  method : String
  nParticles : ℕ
  r : List ℝ
  z : List ℝ
  theta : List ℝ
  x : List ℝ
  y : List ℝ

/-- The initial-conditions context (`ICgen.IC`, a collaborator) as consumed
by `pos.__init__` and `rho_from_array.save`: its settings plus the
optionally present Density Interpolant `rho` and surface-density inverse
CDF `sigma.cdf_inv`; the source's `hasattr` tests become `Option`
matches. -/
structure IC where
  settings : settings
  rho : Option (rho_from_array ℝ)
  sigma : Option (ℝ → ℝ)

/-- Constructor `pos.__init__(ICobj, method)` from `pos_class.py`,
executed in source order: check `rho` is present (else
`raise NameError`), check `sigma` is present (else `raise NameError`),
resolve the method (an explicit argument overwrites
`ICobj.settings.pos_gen.method` in place), read `nParticles`, then run
`_generate_r`, `_generate_z`, `_generate_theta`, `_cartesian_pos`.
Returns the owning context's settings as left by the call, and either the
constructed object or the error raised.  The random streams consumed are
passed explicitly: `rrand` (radial draws for method `'random'`), `mz`
(vertical CDF draws), `signs` (the ±1 choices), `trand` (azimuthal
draws). -/
noncomputable def pos.init (ICobj : IC) (method : Option String)
    (rrand mz signs trand : List ℝ) : settings × Except PosError pos :=
  match ICobj.rho with
  | none =>
    (ICobj.settings, Except.error (PosError.nameError "rho could not be found in the IC object"))
  | some R =>
    match ICobj.sigma with
    | none =>
      (ICobj.settings, Except.error (PosError.nameError "sigma could not be found in the IC object"))
    | some cdf_inv_r =>
      let meth := match method with
        | none => ICobj.settings.pos_gen.method
        | some s => s
      let settings' := match method with
        | none => ICobj.settings
        | some s => { ICobj.settings with pos_gen := { ICobj.settings.pos_gen with method := s } }
      let nP := settings'.pos_gen.nParticles
      (settings',
        match generate_r meth nP cdf_inv_r rrand with
        | none => Except.error (PosError.attributeError "pos instance has no attribute r")
        | some r =>
          let z := generate_z R mz signs r
          match generate_theta meth nP r trand with
          | none => Except.error (PosError.attributeError "pos instance has no attribute theta")
          | some theta =>
            Except.ok
              { method := meth, nParticles := nP, r := r, z := z, theta := theta,
                x := r.zipWith (fun ri ti => ri * Real.cos ti) theta,
                y := r.zipWith (fun ri ti => ri * Real.sin ti) theta })

/-- Lookup in `l.map f`: entry `n < l.length` is `f` of entry `n` of `l`. -/
theorem getD_map {β γ : Type} (f : β → γ) (l : List β) {n : ℕ} (hn : n < l.length)
    (d : β) (d' : γ) : (l.map f).getD n d' = f (l.getD n d) := by
  rw [List.getD_eq_getElem?_getD, List.getElem?_map, List.getD_eq_getElem?_getD,
    List.getElem?_eq_getElem hn]
  rfl

/-- `cdf_inv` on arrays of equal length returns an array of that length. -/
theorem cdf_inv_length (R : rho_from_array α) {m r : List α} (h : m.length = r.length) :
    (R.cdf_inv m r).length = r.length := by
  unfold rho_from_array.cdf_inv
  have h1 : ¬ m.length < r.length := by omega
  have h2 : ¬ r.length < m.length := by omega
  simp [h1, h2]

/-- Entry `i` of `cdf_inv m r` for equal-length `m`, `r`: the masked
per-index computation of the source loop. -/
theorem cdf_inv_getD (R : rho_from_array α) {m r : List α} (h : m.length = r.length)
    {i : ℕ} (hi : i < r.length) :
    (R.cdf_inv m r).getD i 0 =
      if npMin R.r_bins ≤ r.getD i 0 ∧ r.getD i 0 < npMax R.r_bins then
        (R.cdf_inv_fns.getD (digitize (r.getD i 0) R.r_bins - 1) (fun _ => 0)) (m.getD i 0) +
          (((R.cdf_inv_fns.getD (digitize (r.getD i 0) R.r_bins) (fun _ => 0)) (m.getD i 0) -
              (R.cdf_inv_fns.getD (digitize (r.getD i 0) R.r_bins - 1) (fun _ => 0)) (m.getD i 0)) /
            (R.r_bins.getD 1 0 - R.r_bins.getD 0 0)) *
          (r.getD i 0 - R.r_bins.getD (digitize (r.getD i 0) R.r_bins - 1) 0)
      else 0 := by
  unfold rho_from_array.cdf_inv
  have h1 : ¬ m.length < r.length := by omega
  have h2 : ¬ r.length < m.length := by omega
  simp only [h1, if_false, h2]
  exact getD_map_range _ 0 hi

/-- C2: for every call `cdf_inv(m, r)` (equal-length arrays), each entry of
`r` outside the half-open interval `[r_min, r_max)` — in particular `r`
exactly equal to `r_max` — is silently excluded: its entry in the returned
array remains the zero the output buffer was initialised to (no error is
raised: the model is a total function), and the output has one entry per
input entry, entries inside `[r_min, r_max)` being the only ones
written. -/
theorem cdf_inv_outside_zero (R : rho_from_array ℚ) (m r : List ℚ)
    (h : m.length = r.length) (i : ℕ) (hi : i < r.length)
    (hout : ¬ (npMin R.r_bins ≤ r.getD i 0 ∧ r.getD i 0 < npMax R.r_bins)) :
    (R.cdf_inv m r).getD i 0 = 0 ∧ (R.cdf_inv m r).length = r.length := by
  refine ⟨?_, cdf_inv_length R h⟩
  rw [cdf_inv_getD R h hi, if_neg hout]

/-- A Density Interpolant over the radial grid `[0, 1, 2]` with distinct
per-radius samplers, used as a concrete input below. -/
def RC2 : rho_from_array ℚ :=
  { rho_binned := [[1, 1, 1], [1, 1, 1]]
    z_bins := [0, 1]
    r_bins := [0, 1, 2]
    cdf_inv_fns := [fun _ => 5, fun _ => 6, fun _ => 7]
    rho_spline := fun _ _ => 1
    drho_dr_spline := fun _ _ => 0 }

/-- Witness for C2 at `r = r_max = 2` on the grid `[0, 1, 2]`: the entry is
excluded and left at zero. -/
theorem cdf_inv_outside_zero_witness :
    (¬ (npMin RC2.r_bins ≤ ([2] : List ℚ).getD 0 0 ∧
        ([2] : List ℚ).getD 0 0 < npMax RC2.r_bins)) ∧
    ([2] : List ℚ).getD 0 0 = npMax RC2.r_bins ∧
    (RC2.cdf_inv [1/2] [2]).getD 0 0 = 0 ∧ (RC2.cdf_inv [1/2] [2]).length = 1 := by
  refine ⟨by decide, by decide, ?_⟩
  exact cdf_inv_outside_zero RC2 [1/2] [2] rfl 0 (by decide) (by decide)

/-- C4 (amended): for equal-length `m`, `r` and a strictly increasing
stored radial grid, each entry of `r` inside `[r_min, r_max)` is handled by
locating the radial bracket containing it via binned search
(`j = digitize`, and indeed `r_bins[j-1] ≤ r[i] < r_bins[j]`), evaluating
the two bracketing per-radius inverse-CDF samplers at `m[i]`, and linearly
interpolating between the two resulting z-values with the offset
`r[i] - r_bins[j-1]` divided by the FIRST grid spacing
`r_bins[1] - r_bins[0]` — which equals the fractional position within the
bracket exactly when the grid is uniformly spaced. -/
theorem cdf_inv_inside_formula (R : rho_from_array ℚ) (m r : List ℚ)
    (h : m.length = r.length) (i : ℕ) (hi : i < r.length)
    (hsort : List.Pairwise (· < ·) R.r_bins)
    (hin : npMin R.r_bins ≤ r.getD i 0 ∧ r.getD i 0 < npMax R.r_bins) :
    1 ≤ digitize (r.getD i 0) R.r_bins ∧
    digitize (r.getD i 0) R.r_bins < R.r_bins.length ∧
    R.r_bins.getD (digitize (r.getD i 0) R.r_bins - 1) 0 ≤ r.getD i 0 ∧
    r.getD i 0 < R.r_bins.getD (digitize (r.getD i 0) R.r_bins) 0 ∧
    (R.cdf_inv m r).getD i 0 =
      (R.cdf_inv_fns.getD (digitize (r.getD i 0) R.r_bins - 1) (fun _ => 0)) (m.getD i 0) +
        (((R.cdf_inv_fns.getD (digitize (r.getD i 0) R.r_bins) (fun _ => 0)) (m.getD i 0) -
            (R.cdf_inv_fns.getD (digitize (r.getD i 0) R.r_bins - 1) (fun _ => 0)) (m.getD i 0)) /
          (R.r_bins.getD 1 0 - R.r_bins.getD 0 0)) *
        (r.getD i 0 - R.r_bins.getD (digitize (r.getD i 0) R.r_bins - 1) 0) := by
  have hne : R.r_bins ≠ [] := by
    intro he
    rw [he] at hin
    simp [npMin, npMax] at hin
    exact absurd (lt_of_le_of_lt hin.1 hin.2) (lt_irrefl 0)
  refine ⟨digitize_pos hne hin.1, digitize_lt_length hne hin.2,
    digitize_lower _ _ hsort (digitize_pos hne hin.1),
    digitize_upper _ _ hsort (digitize_lt_length hne hin.2), ?_⟩
  rw [cdf_inv_getD R h hi, if_pos hin]

/-- A Density Interpolant with strictly increasing but NON-uniform radial
grid `[0, 1, 3]`, used as a concrete input below. -/
def RC4 : rho_from_array ℚ :=
  { rho_binned := [[1, 1, 1], [1, 1, 1]]
    z_bins := [0, 1]
    r_bins := [0, 1, 3]
    cdf_inv_fns := [fun _ => 0, fun _ => 0, fun _ => 1]
    rho_spline := fun _ _ => 1
    drho_dr_spline := fun _ _ => 0 }

/-- Modelled from the spec: the interpolation C4 asserts — the two
bracketing z-values combined "in proportion to r's fractional position
within that bracket", i.e. with weight
`(r - r_bins[j-1]) / (r_bins[j] - r_bins[j-1])`. -/
def claimBracketInterp (R : rho_from_array ℚ) (mi ri : ℚ) : ℚ :=
  let j := digitize ri R.r_bins
  let z_lo := (R.cdf_inv_fns.getD (j - 1) (fun _ => 0)) mi
  let z_hi := (R.cdf_inv_fns.getD j (fun _ => 0)) mi
  z_lo + (z_hi - z_lo) * (ri - R.r_bins.getD (j - 1) 0) /
    (R.r_bins.getD j 0 - R.r_bins.getD (j - 1) 0)

/-- Counterexample to C4 as stated: on the non-uniform grid `[0, 1, 3]`,
for `r = 2` (bracket `[1, 3)`, fractional position 1/2) the code divides
the offset by the first grid spacing `r_bins[1] - r_bins[0] = 1`, returning
`1`, while interpolation in proportion to the fractional position within
the bracket would return `1/2`. -/
theorem cdf_inv_not_fractional :
    (RC4.cdf_inv [1/2] [2]).getD 0 0 = 1 ∧
    claimBracketInterp RC4 (1/2) 2 = 1/2 ∧
    (RC4.cdf_inv [1/2] [2]).getD 0 0 ≠ claimBracketInterp RC4 (1/2) 2 := by
  have h1 : (RC4.cdf_inv [1/2] [2]).getD 0 0 = 1 := by
    norm_num [rho_from_array.cdf_inv, RC4, digitize, List.filter, npMin, npMax,
      List.range_succ]
  have h2 : claimBracketInterp RC4 (1/2) 2 = 1/2 := by
    norm_num [claimBracketInterp, RC4, digitize, List.filter]
  refine ⟨h1, h2, ?_⟩
  rw [h1, h2]
  norm_num

/-- Witness for C4's amended statement on a uniform grid: `r = 3/2` on
`[0, 1, 2]` lands in bracket `[1, 2)` and the written value follows the
source's interpolation formula. -/
theorem cdf_inv_inside_formula_witness :
    List.Pairwise (· < ·) RC2.r_bins ∧
    (npMin RC2.r_bins ≤ ([3/2] : List ℚ).getD 0 0 ∧
      ([3/2] : List ℚ).getD 0 0 < npMax RC2.r_bins) ∧
    (1 ≤ digitize (([3/2] : List ℚ).getD 0 0) RC2.r_bins ∧
      digitize (([3/2] : List ℚ).getD 0 0) RC2.r_bins < RC2.r_bins.length ∧
      RC2.r_bins.getD (digitize (([3/2] : List ℚ).getD 0 0) RC2.r_bins - 1) 0
        ≤ ([3/2] : List ℚ).getD 0 0 ∧
      ([3/2] : List ℚ).getD 0 0
        < RC2.r_bins.getD (digitize (([3/2] : List ℚ).getD 0 0) RC2.r_bins) 0 ∧
      (RC2.cdf_inv [1/2] [3/2]).getD 0 0 =
        (RC2.cdf_inv_fns.getD (digitize (([3/2] : List ℚ).getD 0 0) RC2.r_bins - 1)
            (fun _ => 0)) (([1/2] : List ℚ).getD 0 0) +
          (((RC2.cdf_inv_fns.getD (digitize (([3/2] : List ℚ).getD 0 0) RC2.r_bins)
                (fun _ => 0)) (([1/2] : List ℚ).getD 0 0) -
              (RC2.cdf_inv_fns.getD (digitize (([3/2] : List ℚ).getD 0 0) RC2.r_bins - 1)
                (fun _ => 0)) (([1/2] : List ℚ).getD 0 0)) /
            (RC2.r_bins.getD 1 0 - RC2.r_bins.getD 0 0)) *
          (([3/2] : List ℚ).getD 0 0 -
            RC2.r_bins.getD (digitize (([3/2] : List ℚ).getD 0 0) RC2.r_bins - 1) 0)) := by
  have hin : npMin RC2.r_bins ≤ ([3/2] : List ℚ).getD 0 0 ∧
      ([3/2] : List ℚ).getD 0 0 < npMax RC2.r_bins := by
    norm_num [RC2, npMin, npMax]
  refine ⟨by decide, hin, ?_⟩
  exact cdf_inv_inside_formula RC2 [1/2] [3/2] rfl 0 (by decide) (by decide) hin

/-- Counterexample to C1 as stated: with `nParticles = 4` and method
`'grid'`, `pos._generate_r` slices the boundary points off BEFORE the call
(`cdf_inv_r(m[1:-1])`), so the radial inverse CDF is invoked with the
4-entry list `m[1:-1]`, not with all 6 cumulative values. -/
theorem generate_r_grid_arg_length :
    (gridMs 4 : List ℚ).length = 4 ∧ (gridMs 4 : List ℚ).length ≠ 6 := by
  exact ⟨rfl, by decide⟩

/-- C1 (amended): with `nParticles = 4` and method `'grid'`, the radial
step builds 6 evenly spaced cumulative values spanning [0,1]
(`np.linspace(0,1,6)`), invokes the radial inverse CDF with exactly the 4
interior values, and returns exactly 4 radii which — for a strictly
increasing inverse CDF sending 0 to `r_min` and 1 to `r_max` (the
surface-density collaborator of §6) — are strictly increasing and
strictly inside `(r_min, r_max)`. -/
theorem generate_r_grid_four (f : ℚ → ℚ) (rmin rmax : ℚ)
    (hmono : StrictMonoOn f (Set.Icc 0 1)) (h0 : f 0 = rmin) (h1 : f 1 = rmax) :
    linspace (0:ℚ) 1 (4 + 2) = [0, 1/5, 2/5, 3/5, 4/5, 1] ∧
    (gridMs 4 : List ℚ).length = 4 ∧
    generate_r "grid" 4 f [] = some [f (1/5), f (2/5), f (3/5), f (4/5)] ∧
    List.Chain' (· < ·) [f (1/5), f (2/5), f (3/5), f (4/5)] ∧
    (∀ x ∈ [f (1/5), f (2/5), f (3/5), f (4/5)], rmin < x ∧ x < rmax) := by
  have hg : (gridMs 4 : List ℚ) = [1/5, 2/5, 3/5, 4/5] := by
    norm_num [gridMs, linspace, List.range_succ]
  have hmem : ∀ q : ℚ, 0 ≤ q → q ≤ 1 → q ∈ Set.Icc (0:ℚ) 1 := fun q hq hq' => ⟨hq, hq'⟩
  have h01 : f 0 < f (1/5) := hmono (hmem 0 (by norm_num) (by norm_num))
    (hmem _ (by norm_num) (by norm_num)) (by norm_num)
  have h12 : f (1/5) < f (2/5) := hmono (hmem _ (by norm_num) (by norm_num))
    (hmem _ (by norm_num) (by norm_num)) (by norm_num)
  have h23 : f (2/5) < f (3/5) := hmono (hmem _ (by norm_num) (by norm_num))
    (hmem _ (by norm_num) (by norm_num)) (by norm_num)
  have h34 : f (3/5) < f (4/5) := hmono (hmem _ (by norm_num) (by norm_num))
    (hmem _ (by norm_num) (by norm_num)) (by norm_num)
  have h45 : f (4/5) < f 1 := hmono (hmem _ (by norm_num) (by norm_num))
    (hmem 1 (by norm_num) (by norm_num)) (by norm_num)
  refine ⟨by norm_num [linspace, List.range_succ], by rw [hg]; rfl,
    by simp [generate_r, hg], ?_, ?_⟩
  · simp only [List.chain'_cons, List.chain'_singleton, and_true]
    exact ⟨h12, h23, h34⟩
  · intro x hx
    rw [← h0, ← h1]
    rcases List.mem_cons.1 hx with rfl | hx
    · exact ⟨h01, lt_trans (lt_trans (lt_trans h12 h23) h34) h45⟩
    rcases List.mem_cons.1 hx with rfl | hx
    · exact ⟨lt_trans h01 h12, lt_trans (lt_trans h23 h34) h45⟩
    rcases List.mem_cons.1 hx with rfl | hx
    · exact ⟨lt_trans (lt_trans h01 h12) h23, lt_trans h34 h45⟩
    rcases List.mem_cons.1 hx with rfl | hx
    · exact ⟨lt_trans (lt_trans (lt_trans h01 h12) h23) h34, h45⟩
    · exact absurd hx (List.not_mem_nil x)

/-- Witness for C1's amended statement at the identity inverse CDF, with
`r_min = 0`, `r_max = 1`. -/
theorem generate_r_grid_four_witness :
    linspace (0:ℚ) 1 (4 + 2) = [0, 1/5, 2/5, 3/5, 4/5, 1] ∧
    (gridMs 4 : List ℚ).length = 4 ∧
    generate_r "grid" 4 (fun x : ℚ => x) [] = some [1/5, 2/5, 3/5, 4/5] ∧
    List.Chain' (· < ·) [(1:ℚ)/5, 2/5, 3/5, 4/5] ∧
    (∀ x ∈ [(1:ℚ)/5, 2/5, 3/5, 4/5], 0 < x ∧ x < 1) :=
  generate_r_grid_four (fun x : ℚ => x) 0 1 (fun _ _ _ _ hab => hab) rfl rfl

/-- A Density Interpolant whose stored table is identically 1 on the grids
z ∈ [0, 1], r ∈ [1, 2].  scipy's `RectBivariateSpline` fitted to a constant
table is the constant function — splines reproduce polynomials of their
degree exactly, and FITPACK evaluation outside the knot span extrapolates
the boundary polynomial — so `rho_spline` is `fun _ _ => 1` everywhere,
including outside the domain. -/
def RC3 : rho_from_array ℚ :=
  { rho_binned := [[1, 1], [1, 1]]
    z_bins := [0, 1]
    r_bins := [1, 2]
    cdf_inv_fns := [fun _ => 0, fun _ => 0]
    rho_spline := fun _ _ => 1
    drho_dr_spline := fun _ _ => 0 }

/-- C3 fails on the code (the class's own docstring — "Points outside of
z,r are taken to be zero" — and the claim assert zero): `rho` evaluates
the fitted spline with no domain test, so at (z, r) = (5, 5), outside
[0,1]×[1,2], the constant-1 interpolant returns 1, not 0. -/
theorem rho_outside_domain_nonzero :
    (npMax RC3.z_bins < 5 ∧ npMax RC3.r_bins < 5) ∧
    RC3.rho 5 5 = 1 ∧ RC3.rho 5 5 ≠ 0 := by decide

/-- C7: the Density Field Builder constructs its radial grid as `nr` evenly
spaced points spanning the inclusive minimum and maximum of the
surface-density profile's own radial grid, invokes the Vertical Density
Solver exactly once per radial grid point (the call trace equals the grid,
in order), and assembles the table so that column `n` holds the solver's
density vector at radius `r[n]`, with the one vertical grid that every
solver call shares. -/
theorem rho_zr_spec (solver : ℚ → List ℚ × List ℚ) (nr : ℕ) (srb : List ℚ)
    (zg : List ℚ) (hsolver : ∀ x, (solver x).2 = zg) (hnr : 2 ≤ nr) :
    (rho_zr solver nr srb).2.2.1.length = nr ∧
    (rho_zr solver nr srb).2.2.1.getD 0 0 = npMin srb ∧
    (rho_zr solver nr srb).2.2.1.getD (nr - 1) 0 = npMax srb ∧
    (∀ i, i + 1 < nr →
      (rho_zr solver nr srb).2.2.1.getD (i + 1) 0 - (rho_zr solver nr srb).2.2.1.getD i 0
        = (npMax srb - npMin srb) / ((nr - 1 : ℕ) : ℚ)) ∧
    (rho_zr solver nr srb).2.2.2 = (rho_zr solver nr srb).2.2.1 ∧
    (rho_zr solver nr srb).1.length = nr ∧
    (∀ n, n < nr →
      (rho_zr solver nr srb).1.getD n []
        = (solver ((rho_zr solver nr srb).2.2.1.getD n 0)).1) ∧
    (rho_zr solver nr srb).2.1 = zg := by
  have hD : ((nr - 1 : ℕ) : ℚ) ≠ 0 := by
    have h : nr - 1 ≠ 0 := by omega
    exact_mod_cast h
  have hr : (rho_zr solver nr srb).2.2.1 = linspace (npMin srb) (npMax srb) nr := rfl
  have hcols : (rho_zr solver nr srb).1
      = (linspace (npMin srb) (npMax srb) nr).map (fun x => (solver x).1) :=
    rho_zr_loop_cols solver _
  have hlne : linspace (npMin srb) (npMax srb) nr ≠ [] :=
    List.length_pos.1 (by rw [linspace_length]; omega)
  refine ⟨by rw [hr, linspace_length], ?_, ?_, ?_, ?_, ?_, ?_, ?_⟩
  · rw [hr, linspace_getD _ _ (show 0 < nr by omega)]
    norm_num
  · rw [hr, linspace_getD _ _ (show nr - 1 < nr by omega)]
    have hD2 : ((nr : ℚ) - 1) ≠ 0 := by
      have h1 : (1:ℚ) < (nr:ℚ) := by exact_mod_cast (show 1 < nr by omega)
      linarith
    push_cast [Nat.cast_sub (show 1 ≤ nr by omega)]
    field_simp
  · intro i hi
    rw [hr, linspace_getD _ _ (show i + 1 < nr by omega),
      linspace_getD _ _ (show i < nr by omega)]
    push_cast
    field_simp
    ring
  · rw [hr]
    exact rho_zr_loop_calls solver _
  · rw [hcols, List.length_map, linspace_length]
  · intro n hn
    rw [hcols, hr, getD_map _ _ (by rw [linspace_length]; omega) 0 []]
  · have hz : (rho_zr solver nr srb).2.1
        = (solver ((linspace (npMin srb) (npMax srb) nr).getLast hlne)).2 :=
      rho_zr_loop_z solver _ hlne
    rw [hz, hsolver]

/-- Witness for C7 with a two-point radial grid and a solver that returns
the shared vertical grid `[0, 1]` and the density column `[x, x + 1]` at
radius `x`. -/
theorem rho_zr_spec_witness :
    (∀ x : ℚ, ((fun x : ℚ => ([x, x + 1], ([0, 1] : List ℚ))) x).2 = [0, 1]) ∧
    ((rho_zr (fun x : ℚ => ([x, x + 1], ([0, 1] : List ℚ))) 2 [1, 5]).2.2.1.length = 2 ∧
      (rho_zr (fun x : ℚ => ([x, x + 1], ([0, 1] : List ℚ))) 2 [1, 5]).2.2.1.getD 0 0
        = npMin [1, 5] ∧
      (rho_zr (fun x : ℚ => ([x, x + 1], ([0, 1] : List ℚ))) 2 [1, 5]).2.2.1.getD (2 - 1) 0
        = npMax [1, 5] ∧
      (∀ i, i + 1 < 2 →
        (rho_zr (fun x : ℚ => ([x, x + 1], ([0, 1] : List ℚ))) 2 [1, 5]).2.2.1.getD (i + 1) 0 -
            (rho_zr (fun x : ℚ => ([x, x + 1], ([0, 1] : List ℚ))) 2 [1, 5]).2.2.1.getD i 0
          = (npMax [1, 5] - npMin [1, 5]) / ((2 - 1 : ℕ) : ℚ)) ∧
      (rho_zr (fun x : ℚ => ([x, x + 1], ([0, 1] : List ℚ))) 2 [1, 5]).2.2.2
        = (rho_zr (fun x : ℚ => ([x, x + 1], ([0, 1] : List ℚ))) 2 [1, 5]).2.2.1 ∧
      (rho_zr (fun x : ℚ => ([x, x + 1], ([0, 1] : List ℚ))) 2 [1, 5]).1.length = 2 ∧
      (∀ n, n < 2 →
        (rho_zr (fun x : ℚ => ([x, x + 1], ([0, 1] : List ℚ))) 2 [1, 5]).1.getD n []
          = ((fun x : ℚ => ([x, x + 1], ([0, 1] : List ℚ)))
              ((rho_zr (fun x : ℚ => ([x, x + 1], ([0, 1] : List ℚ))) 2 [1, 5]).2.2.1.getD n 0)).1) ∧
      (rho_zr (fun x : ℚ => ([x, x + 1], ([0, 1] : List ℚ))) 2 [1, 5]).2.1 = [0, 1]) :=
  ⟨fun _ => rfl,
    rho_zr_spec (fun x : ℚ => ([x, x + 1], ([0, 1] : List ℚ))) 2 [1, 5] [0, 1]
      (fun _ => rfl) (by norm_num)⟩

/-- C8: `save` serializes exactly the three arrays `rho`, `z`, `r` (keys
`'rho'`, `'z'`, `'r'`, in that order) and nothing else — no interpolants,
derivatives, or CDFs; when `filename` is omitted the destination is the
owning context's configured `filenames.rhoFileName`; after the save the
persisted-location field equals the filename actually used, and every
other settings field is unchanged.  (The interpolant itself is returned
untouched: `save` reads only `rho_binned`, `z_bins`, `r_bins`.) -/
theorem save_spec (R : rho_from_array ℚ) (S : settings) (filename : Option String) :
    (R.save S filename).1 =
      [("rho", npValue.arr2 R.rho_binned),
       ("z", npValue.arr1 R.z_bins),
       ("r", npValue.arr1 R.r_bins)] ∧
    (R.save S filename).1.map Prod.fst = ["rho", "z", "r"] ∧
    (R.save S filename).2.1 = filename.getD S.filenames.rhoFileName ∧
    (R.save S filename).2.2.filenames.rhoFileName = (R.save S filename).2.1 ∧
    (R.save S filename).2.2.filenames.IC_file_name = S.filenames.IC_file_name ∧
    (R.save S filename).2.2.filenames.snapshotName = S.filenames.snapshotName ∧
    (R.save S filename).2.2.filenames.paramName = S.filenames.paramName ∧
    (R.save S filename).2.2.rho_calc = S.rho_calc ∧
    (R.save S filename).2.2.pos_gen = S.pos_gen ∧
    (R.save S filename).2.2.snapshot = S.snapshot ∧
    (R.save S filename).2.2.physical = S.physical :=
  ⟨rfl, rfl, rfl, rfl, rfl, rfl, rfl, rfl, rfl, rfl, rfl⟩

/-- One spiral step of the `'grid'` azimuthal loop is strictly downward
when the two consecutive radii are positive and strictly increasing. -/
theorem theta_rec_step (r : List ℝ) (k : ℕ) (hk : k + 1 < r.length)
    (hpos : 0 < r.getD k 0) (hlt : r.getD k 0 < r.getD (k + 1) 0) :
    theta_rec r (k + 1) < theta_rec r k := by
  have hpos1 : 0 < r.getD (k + 1) 0 := lt_trans hpos hlt
  have hratio : r.getD k 0 / r.getD (k + 1) 0 < 1 := (div_lt_one hpos1).2 hlt
  have harg : 0 < 2 * Real.pi * (1 - r.getD k 0 / r.getD (k + 1) 0) := by
    have hpi := Real.pi_pos
    nlinarith
  have hsq : 0 < Real.sqrt (2 * Real.pi * (1 - r.getD k 0 / r.getD (k + 1) 0)) :=
    Real.sqrt_pos.2 harg
  have hrec : theta_rec r (k + 1)
      = theta_rec r k - Real.sqrt (2 * Real.pi * (1 - r.getD k 0 / r.getD (k + 1) 0)) := rfl
  rw [hrec]
  linarith

/-- C5: for a positive, radius-sorted strictly ascending radial sequence,
grid-mode azimuthal sampling starts at `theta[0] = 0`, accumulates by
subtraction — `theta[n+1] = theta[n] - sqrt(2π(1 - r[n]/r[n+1]))` — and is
strictly monotonically decreasing in particle index. -/
theorem theta_rec_spec (r : List ℝ)
    (hpos : ∀ i, i < r.length → 0 < r.getD i 0)
    (hmono : List.Chain' (· < ·) r) :
    theta_rec r 0 = 0 ∧
    (∀ n, theta_rec r (n + 1) =
      theta_rec r n - Real.sqrt (2 * Real.pi * (1 - r.getD n 0 / r.getD (n + 1) 0))) ∧
    (∀ m n, m < n → n < r.length → theta_rec r n < theta_rec r m) := by
  have hadj : ∀ k, k + 1 < r.length → r.getD k 0 < r.getD (k + 1) 0 := by
    intro k hk
    have h := List.chain'_iff_get.1 hmono k (by omega)
    rwa [List.get_eq_getElem, List.get_eq_getElem,
      ← List.getD_eq_getElem r 0 (show k < r.length by omega),
      ← List.getD_eq_getElem r 0 hk] at h
  have hstep : ∀ k, k + 1 < r.length → theta_rec r (k + 1) < theta_rec r k := fun k hk =>
    theta_rec_step r k hk (hpos k (by omega)) (hadj k hk)
  refine ⟨rfl, fun n => rfl, ?_⟩
  intro m n
  induction n with
  | zero => intro hmn _; omega
  | succ k ih =>
    intro hmn hn
    have hs := hstep k hn
    rcases Nat.lt_succ_iff_lt_or_eq.1 hmn with hmk | heq
    · exact lt_trans hs (ih hmk (by omega))
    · subst heq
      exact hs

/-- Witness for C5 on the concrete radii `[1, 2, 4]`. -/
theorem theta_rec_spec_witness :
    (∀ i, i < ([1, 2, 4] : List ℝ).length → 0 < ([1, 2, 4] : List ℝ).getD i 0) ∧
    List.Chain' (· < ·) ([1, 2, 4] : List ℝ) ∧
    (theta_rec [1, 2, 4] 0 = 0 ∧
      (∀ n, theta_rec [1, 2, 4] (n + 1) =
        theta_rec [1, 2, 4] n -
          Real.sqrt (2 * Real.pi *
            (1 - ([1, 2, 4] : List ℝ).getD n 0 / ([1, 2, 4] : List ℝ).getD (n + 1) 0))) ∧
      (∀ m n, m < n → n < ([1, 2, 4] : List ℝ).length →
        theta_rec [1, 2, 4] n < theta_rec [1, 2, 4] m)) := by
  have hp : ∀ i, i < ([1, 2, 4] : List ℝ).length → 0 < ([1, 2, 4] : List ℝ).getD i 0 := by
    intro i hi
    simp only [List.length_cons, List.length_nil] at hi
    interval_cases i <;> norm_num [List.getD_cons_zero, List.getD_cons_succ]
  have hc : List.Chain' (· < ·) ([1, 2, 4] : List ℝ) := by
    simp only [List.chain'_cons, List.chain'_singleton, and_true]
    norm_num
  exact ⟨hp, hc, theta_rec_spec [1, 2, 4] hp hc⟩

/-- A trivial Density Interpolant over ℝ, used in concrete contexts. -/
noncomputable def Rtrivial : rho_from_array ℝ :=
  { rho_binned := [[1]]
    z_bins := [0]
    r_bins := [0]
    cdf_inv_fns := [fun _ => 0]
    rho_spline := fun _ _ => 0
    drho_dr_spline := fun _ _ => 0 }

/-- The default settings of `ICgen_settings.py` (with `nParticles` 4 and a
`rhoFileName` slot). -/
def settings0 : settings :=
  { filenames := { IC_file_name := "IC.p", snapshotName := "snapshot.std",
                   paramName := "snapshot.param", rhoFileName := "rho.p" }
    rho_calc := { nr := 1000, nz := 1000, zmax := 1, rho_tol := 1001/1000 }
    pos_gen := { nParticles := 4, method := "grid" }
    snapshot := { mScale := 1/100, metals := 1, eps := 1/100 }
    physical := { m := 2, M := 33/100, T0 := 332, r0 := 1/2, Tpower := -59/100, Tmin := 0 } }

/-- A context holding both a Density Interpolant and a sigma inverse CDF. -/
noncomputable def IC0 : IC :=
  { settings := settings0, rho := some Rtrivial, sigma := some (fun x => x) }

/-- A context lacking the Density Interpolant `rho`. -/
noncomputable def ICnoRho : IC :=
  { settings := settings0, rho := none, sigma := some (fun x => x) }

/-- A context lacking the surface-density profile `sigma`. -/
noncomputable def ICnoSigma : IC :=
  { settings := settings0, rho := some Rtrivial, sigma := none }

/-- Counterexample to C6 as stated: constructing the Position Sampler with
an explicit method argument writes that method into the owning context's
settings (`ICobj.settings.pos_gen.method = method` in `pos.__init__`), so
the configuration is not read-only. -/
theorem pos_init_mutates_method :
    IC0.settings.pos_gen.method = "grid" ∧
    (pos.init IC0 (some "random") [] [] [] []).1.pos_gen.method = "random" ∧
    (pos.init IC0 (some "random") [] [] [] []).1.pos_gen.method
      ≠ IC0.settings.pos_gen.method := by
  refine ⟨rfl, rfl, ?_⟩
  intro h
  exact absurd (rfl.trans h) (by decide)

/-- C6 (amended): constructing the Position Sampler WITHOUT an explicit
method argument leaves every settings field of the owning context
unchanged; constructing it WITH an explicit method argument (on a context
passing the precondition checks) sets `pos_gen.method` to that argument
and leaves every other settings field — including `pos_gen.nParticles` —
unchanged. -/
theorem pos_init_settings_spec :
    (∀ (ICobj : IC) (rrand mz signs trand : List ℝ),
      (pos.init ICobj none rrand mz signs trand).1 = ICobj.settings) ∧
    (∀ (ICobj : IC) (R : rho_from_array ℝ) (f : ℝ → ℝ) (meth : String)
        (rrand mz signs trand : List ℝ),
      ICobj.rho = some R → ICobj.sigma = some f →
      (pos.init ICobj (some meth) rrand mz signs trand).1.pos_gen.method = meth ∧
      (pos.init ICobj (some meth) rrand mz signs trand).1.pos_gen.nParticles
        = ICobj.settings.pos_gen.nParticles ∧
      (pos.init ICobj (some meth) rrand mz signs trand).1.filenames
        = ICobj.settings.filenames ∧
      (pos.init ICobj (some meth) rrand mz signs trand).1.rho_calc
        = ICobj.settings.rho_calc ∧
      (pos.init ICobj (some meth) rrand mz signs trand).1.snapshot
        = ICobj.settings.snapshot ∧
      (pos.init ICobj (some meth) rrand mz signs trand).1.physical
        = ICobj.settings.physical) := by
  constructor
  · intro ICobj rrand mz signs trand
    rcases hrho : ICobj.rho with _ | R
    · simp [pos.init, hrho]
    · rcases hsig : ICobj.sigma with _ | f
      · simp [pos.init, hrho, hsig]
      · simp [pos.init, hrho, hsig]
  · intro ICobj R f meth rrand mz signs trand hrho hsig
    refine ⟨?_, ?_, ?_, ?_, ?_, ?_⟩ <;> simp [pos.init, hrho, hsig]

/-- Witness for C6's amended statement: explicit method `'random'` on a
complete context updates `pos_gen.method` and nothing else. -/
theorem pos_init_settings_spec_witness :
    (pos.init IC0 (some "random") [] [] [] []).1.pos_gen.method = "random" ∧
    (pos.init IC0 (some "random") [] [] [] []).1.pos_gen.nParticles
      = IC0.settings.pos_gen.nParticles ∧
    (pos.init IC0 (some "random") [] [] [] []).1.filenames = IC0.settings.filenames ∧
    (pos.init IC0 (some "random") [] [] [] []).1.rho_calc = IC0.settings.rho_calc ∧
    (pos.init IC0 (some "random") [] [] [] []).1.snapshot = IC0.settings.snapshot ∧
    (pos.init IC0 (some "random") [] [] [] []).1.physical = IC0.settings.physical :=
  pos_init_settings_spec.2 IC0 Rtrivial (fun x => x) "random" [] [] [] [] rfl rfl

/-- C9: constructing the Position Sampler on a context lacking the Density
Interpolant `rho` or the surface-density profile `sigma` raises the
corresponding `NameError` immediately — the result is that error for every
method argument and every random stream, so no radial, vertical or
azimuthal sampling work contributes; when both are present no `NameError`
is ever raised. -/
theorem pos_init_preconditions :
    (∀ (ICobj : IC) (method : Option String) (rrand mz signs trand : List ℝ),
      ICobj.rho = none →
      (pos.init ICobj method rrand mz signs trand).2
        = Except.error (PosError.nameError "rho could not be found in the IC object")) ∧
    (∀ (ICobj : IC) (R : rho_from_array ℝ) (method : Option String)
        (rrand mz signs trand : List ℝ),
      ICobj.rho = some R → ICobj.sigma = none →
      (pos.init ICobj method rrand mz signs trand).2
        = Except.error (PosError.nameError "sigma could not be found in the IC object")) ∧
    (∀ (ICobj : IC) (R : rho_from_array ℝ) (f : ℝ → ℝ) (method : Option String)
        (rrand mz signs trand : List ℝ),
      ICobj.rho = some R → ICobj.sigma = some f →
      ∀ msg, (pos.init ICobj method rrand mz signs trand).2
        ≠ Except.error (PosError.nameError msg)) := by
  refine ⟨?_, ?_, ?_⟩
  · intro ICobj method rrand mz signs trand hrho
    simp [pos.init, hrho]
  · intro ICobj R method rrand mz signs trand hrho hsig
    simp [pos.init, hrho, hsig]
  · intro ICobj R f method rrand mz signs trand hrho hsig msg
    simp only [pos.init, hrho, hsig]
    rcases hgen : generate_r (match method with
        | none => ICobj.settings.pos_gen.method
        | some s => s)
      (match method with
        | none => ICobj.settings
        | some s =>
          { ICobj.settings with
            pos_gen := { ICobj.settings.pos_gen with method := s } }).pos_gen.nParticles
      f rrand with _ | r
    · simp [hgen]
    · simp only [hgen]
      clear hgen
      rcases hth : generate_theta (match method with
          | none => ICobj.settings.pos_gen.method
          | some s => s)
        (match method with
          | none => ICobj.settings
          | some s =>
            { ICobj.settings with
              pos_gen := { ICobj.settings.pos_gen with method := s } }).pos_gen.nParticles
        r trand with _ | theta
      · simp [hth]
      · simp [hth]

/-- Witness for C9: a context without `rho` produces the `NameError`
before any sampling. -/
theorem pos_init_preconditions_witness :
    (pos.init ICnoRho none [] [] [] []).2
      = Except.error (PosError.nameError "rho could not be found in the IC object") :=
  pos_init_preconditions.1 ICnoRho none [] [] [] [] rfl

/-- C10: with a method string that is neither `'grid'` nor `'random'`, the
precondition checks pass, `_generate_r` runs neither of its branches and
assigns no radial positions (`none`), and the failure surfaces only when
`_generate_z` reads the never-assigned radial coordinates — as an
`AttributeError`, not a `NameError` usage error. -/
theorem pos_init_invalid_method (ICobj : IC) (R : rho_from_array ℝ) (f : ℝ → ℝ)
    (meth : String) (rrand mz signs trand : List ℝ)
    (hrho : ICobj.rho = some R) (hsig : ICobj.sigma = some f)
    (hgrid : meth ≠ "grid") (hrandom : meth ≠ "random") :
    (∀ (nP : ℕ) (g : ℝ → ℝ) (rand : List ℝ), generate_r meth nP g rand = none) ∧
    (pos.init ICobj (some meth) rrand mz signs trand).2
      = Except.error (PosError.attributeError "pos instance has no attribute r") ∧
    (∀ msg, (pos.init ICobj (some meth) rrand mz signs trand).2
      ≠ Except.error (PosError.nameError msg)) := by
  have hgen : ∀ (nP : ℕ) (g : ℝ → ℝ) (rand : List ℝ), generate_r meth nP g rand = none := by
    intro nP g rand
    simp [generate_r, hgrid, hrandom]
  refine ⟨hgen, ?_, ?_⟩
  · simp [pos.init, hrho, hsig, hgen]
  · intro msg
    simp [pos.init, hrho, hsig, hgen]

/-- Witness for C10 at the concrete method string `'banana'` on a complete
context. -/
theorem pos_init_invalid_method_witness :
    (∀ (nP : ℕ) (g : ℝ → ℝ) (rand : List ℝ), generate_r "banana" nP g rand = none) ∧
    (pos.init IC0 (some "banana") [] [] [] []).2
      = Except.error (PosError.attributeError "pos instance has no attribute r") ∧
    (∀ msg, (pos.init IC0 (some "banana") [] [] [] []).2
      ≠ Except.error (PosError.nameError msg)) :=
  pos_init_invalid_method IC0 Rtrivial (fun x => x) "banana" [] [] [] []
    rfl rfl (by decide) (by decide)
